import Mathlib

/-!
Verification development for the lot-radio-schedule repository.

The embedding models `src/calendar.js` (the event-recurrence resolution and
schedule-assembly engine) and the schedule-consuming check in
`src/generate.js`.  Instants are epoch milliseconds (`Int`), matching the JS
`Date.getTime()` value.  A `YYYY-MM-DD` date string in the fixed timezone is
modelled by its components as a `DateKey` (the string form is injective in the
components for calendar-valid dates, so string equality is `DateKey`
equality).  Integer division below is `Int.ediv` (`/`) and `Int.emod` (`%`);
for the positive divisors used here these agree with floor division, which is
what the JS calendar arithmetic performs.
-/

namespace LotRadio

/-- A `YYYY-MM-DD` calendar-date key (the value of `toETDateString`). -/
structure DateKey where
  y : Int
  m : Int
  d : Int
deriving DecidableEq, Repr

/-- Civil date from a day count since 1970-01-01 (proleptic Gregorian,
Hinnant's algorithm, as performed by the JS `Date`/`Intl` machinery). -/
def civilFromDays (z0 : Int) : DateKey :=
  let z := z0 + 719468
  let era := z / 146097
  let doe := z - era * 146097
  let yoe := (doe - doe / 1460 + doe / 36524 - doe / 146096) / 365
  let y := yoe + era * 400
  let doy := doe - (365 * yoe + yoe / 4 - yoe / 100)
  let mp := (5 * doy + 2) / 153
  let d := doy - (153 * mp + 2) / 5 + 1
  let m := mp + (if mp < 10 then 3 else -9)
  { y := y + (if m ≤ 2 then 1 else 0), m := m, d := d }

/-- Day count since 1970-01-01 of a civil date (inverse of `civilFromDays`). -/
def daysFromCivil (k : DateKey) : Int :=
  let y := k.y - (if k.m ≤ 2 then 1 else 0)
  let era := y / 400
  let yoe := y - era * 400
  let mp := (k.m + 9) % 12
  let doy := (153 * mp + 2) / 5 + k.d - 1
  let doe := yoe * 365 + yoe / 4 - yoe / 100 + doy
  era * 146097 + doe - 719468

/-- Day number (since epoch) of the second Sunday of March of year `y`
(US DST begins at 2:00 EST = 07:00 UTC that day). -/
def secondSundayOfMarch (y : Int) : Int :=
  let z := daysFromCivil { y := y, m := 3, d := 1 }
  z + (7 - (z + 4) % 7) % 7 + 7

/-- Day number (since epoch) of the first Sunday of November of year `y`
(US DST ends at 2:00 EDT = 06:00 UTC that day). -/
def firstSundayOfNovember (y : Int) : Int :=
  let z := daysFromCivil { y := y, m := 11, d := 1 }
  z + (7 - (z + 4) % 7) % 7

/-- Whether US Eastern daylight-saving time is in effect at an instant
(epoch ms).  Models the `America/New_York` rules applied by
`Intl.DateTimeFormat` in `src/calendar.js`. -/
def isDST (ms : Int) : Bool :=
  let t := ms / 1000
  let y := (civilFromDays (t / 86400)).y
  let dstStart := secondSundayOfMarch y * 86400 + 7 * 3600
  let dstEnd := firstSundayOfNovember y * 86400 + 6 * 3600
  decide (dstStart ≤ t) && decide (t < dstEnd)

/-- UTC-to-Eastern offset in seconds at an instant: -4 h during DST, -5 h
otherwise. -/
def etOffsetSec (ms : Int) : Int :=
  if isDST ms then -14400 else -18000

/-- Local (US Eastern) second count since epoch for an instant. -/
def etLocalSec (ms : Int) : Int :=
  ms / 1000 + etOffsetSec ms

/-- `toETDateString` of `src/calendar.js`: the `YYYY-MM-DD` date of an
instant in the fixed `America/New_York` timezone. -/
def toETDateString (ms : Int) : DateKey :=
  civilFromDays (etLocalSec ms / 86400)

/-- Zero-pad an integer in `[0, 99]` to two digits (the `2-digit` option of
`Intl.DateTimeFormat`). -/
def pad2 (n : Int) : String :=
  if n < 10 then "0" ++ toString n else toString n

/-- `formatTimeET` of `src/calendar.js`: renders an instant as
`"H:MM  AM/ET"` / `"H:MM  PM/ET"` (unpadded 12-hour hour, two-digit minute,
two spaces before the period) in the fixed timezone. -/
def formatTimeET (ms : Int) : String :=
  let sod := etLocalSec ms % 86400
  let h24 := sod / 3600
  let minute := (sod % 3600) / 60
  let h12 := if h24 % 12 = 0 then (12 : Int) else h24 % 12
  let period := if h24 < 12 then "AM" else "PM"
  toString h12 ++ ":" ++ pad2 minute ++ "  " ++ period ++ "/ET"

/-- The weekday array of `src/calendar.js` (index = JS `Date.getDay`,
0 = Sunday), also the long weekday names of `Intl.DateTimeFormat`. -/
def DAYS : List String :=
  ["Sunday", "Monday", "Tuesday", "Wednesday", "Thursday", "Friday", "Saturday"]

/-- Long month names produced by `Intl.DateTimeFormat` (`month: "long"`). -/
def MONTHS : List String :=
  ["January", "February", "March", "April", "May", "June", "July",
   "August", "September", "October", "November", "December"]

/-- `getETDateInfo` of `src/calendar.js`, applied (as `fetchShows` does) to
local noon of a target date key: long weekday and month names, numeric day
and year, all of that date.  Noon Eastern on date `k` falls on Eastern date
`k`, so the function is modelled directly on the key. -/
structure ETDateInfo where
  day : String
  month : String
  dayNum : String
  year : String
deriving DecidableEq, Repr

def getETDateInfo (k : DateKey) : ETDateInfo :=
  { day := DAYS.getD ((daysFromCivil k + 4) % 7).toNat ""
  , month := MONTHS.getD (k.m - 1).toNat ""
  , dayNum := toString k.d
  , year := toString k.y }

/-- Character-list version of `String.startsWith` (first argument is the
pattern), used to model the JS regex test. -/
def charsStartWith : List Char → List Char → Bool
  | [], _ => true
  | _ :: _, [] => false
  | a :: as, b :: bs => a == b && charsStartWith as bs

/-- Whether `pat` occurs as a contiguous run inside the second list. -/
def charsContain (pat : List Char) : List Char → Bool
  | [] => pat.isEmpty
  | b :: bs => charsStartWith pat (b :: bs) || charsContain pat bs

/-- The `/restream/i.test(summary)` check of `cleanSummary`:
case-insensitive substring search for `"restream"` (the pattern is ASCII, so
JS case-insensitive matching is per-character ASCII lowercasing). -/
def hasRestream (s : String) : Bool :=
  charsContain "restream".data (s.data.map Char.toLower)

/-- The character class `[\p{Emoji}\p{Emoji_Component}\s]` of the
`cleanSummary` regex, as Unicode code-point ranges of the `Emoji` and
`Emoji_Component` properties plus whitespace. -/
def emojiRanges : List (Nat × Nat) :=
  [(0x23, 0x23), (0x2A, 0x2A), (0x30, 0x39), (0xA9, 0xA9), (0xAE, 0xAE),
   (0x200D, 0x200D), (0x203C, 0x203C), (0x2049, 0x2049), (0x20E3, 0x20E3),
   (0x2122, 0x2122), (0x2139, 0x2139), (0x2194, 0x2199), (0x21A9, 0x21AA),
   (0x231A, 0x231B), (0x2328, 0x2328), (0x23CF, 0x23CF), (0x23E9, 0x23F3),
   (0x23F8, 0x23FA), (0x24C2, 0x24C2), (0x25AA, 0x25AB), (0x25B6, 0x25B6),
   (0x25C0, 0x25C0), (0x25FB, 0x25FE), (0x2600, 0x27BF), (0x2934, 0x2935),
   (0x2B05, 0x2B07), (0x2B1B, 0x2B1C), (0x2B50, 0x2B50), (0x2B55, 0x2B55),
   (0x3030, 0x3030), (0x303D, 0x303D), (0x3297, 0x3297), (0x3299, 0x3299),
   (0xFE0F, 0xFE0F), (0x1F004, 0x1F004), (0x1F0CF, 0x1F0CF),
   (0x1F170, 0x1F171), (0x1F17E, 0x1F17F), (0x1F18E, 0x1F18E),
   (0x1F191, 0x1F19A), (0x1F1E6, 0x1F1FF), (0x1F201, 0x1F202),
   (0x1F21A, 0x1F21A), (0x1F22F, 0x1F22F), (0x1F232, 0x1F23A),
   (0x1F250, 0x1F251), (0x1F300, 0x1F5FF), (0x1F600, 0x1F64F),
   (0x1F680, 0x1F6FF), (0x1F700, 0x1F77F), (0x1F780, 0x1F7FF),
   (0x1F900, 0x1F9FF), (0x1FA00, 0x1FAFF), (0xE0020, 0xE007F)]

def isEmojiOrSpace (c : Char) : Bool :=
  c.isWhitespace ||
    emojiRanges.any (fun r => decide (r.1 ≤ c.toNat) && decide (c.toNat ≤ r.2))

/-- `String.prototype.trim`: strip leading and trailing whitespace, at the
character-list level. -/
def trimChars (l : List Char) : List Char :=
  ((l.dropWhile Char.isWhitespace).reverse.dropWhile Char.isWhitespace).reverse

/-- `cleanSummary` of `src/calendar.js`: empty input (JS falsy) gives `""`;
a summary containing `"restream"` (case-insensitively) gives `""`; otherwise
the leading run of emoji / emoji-component / whitespace characters is
stripped and the result trimmed. -/
def cleanSummary (summary : String) : String :=
  if summary = "" then ""
  else if hasRestream summary then ""
  else String.mk (trimChars (summary.data.dropWhile isEmojiOrSpace))

/-- `resolveDayName` of `src/calendar.js`.  The current instant is modelled
by its fixed-timezone day number `todayDay` (days since epoch); the process
runs with its clock in the fixed timezone, so `now.getDay()` is
`(todayDay + 4) % 7` and `setDate(getDate() + diff)` advances the
fixed-timezone civil date by `diff` days.  Unknown names give `none`
(JS `null`). -/
def resolveDayName (name : String) (todayDay : Int) : Option DateKey :=
  match List.indexOf? name DAYS with
  | none => none
  | some idx =>
    let today := (todayDay + 4) % 7
    let diff := ((idx : Int) - today + 7) % 7
    some (civilFromDays (todayDay + (if diff = 0 then 0 else diff)))

/-- A key of the `event.recurrences` object.  node-ical keys overrides by a
10-character `YYYY-MM-DD` string; `fetchShows` additionally probes the full
ISO string `occ.toISOString()`.  The two string shapes can never be equal, so
the key space is modelled as a sum. -/
inductive RecKey where
  | date (k : DateKey)
  | instant (ms : Int)
deriving DecidableEq, Repr

/-- A recurrence override instance: replacement summary (`""` models a JS
falsy summary) and optional replacement start instant. -/
structure Override where
  summary : String
  start : Option Int
deriving DecidableEq, Repr

/-- A recurrence rule, modelled by the extension of the rule (its occurrence
instants) together with whether `rrule.between` throws on it. -/
structure RRule where
  occs : List Int
  malformed : Bool
deriving DecidableEq, Repr

/-- `rrule.between(after, before, inc)`: the rule's occurrences within the
window, inclusive of both ends when `inc` is `true`; raises on a malformed
rule. -/
def RRule.between (r : RRule) (after before : Int) (inc : Bool) :
    Except Unit (List Int) :=
  if r.malformed then Except.error ()
  else Except.ok (r.occs.filter (fun t =>
    if inc then decide (after ≤ t) && decide (t ≤ before)
    else decide (after < t) && decide (t < before)))

/-- A parsed feed entry as consumed by `fetchShows`.  `summary = ""` models a
missing/empty (falsy) summary; `start = none` a missing start. -/
structure VEvent where
  type : String
  summary : String
  start : Option Int
  rrule : Option RRule
  recurrences : Option (List (RecKey × Override))
  exdate : Option (List Int)
deriving DecidableEq, Repr

/-- JS object property lookup on the recurrences map. -/
def lookupRec : List (RecKey × Override) → RecKey → Option Override
  | [], _ => none
  | (k, ov) :: rest, key => if k = key then some ov else lookupRec rest key

/-- A collected show before the final sort: formatted time, cleaned name, and
the `_sort` field (`startTime.getTime()`). -/
structure ShowFull where
  time : String
  name : String
  sortKey : Int
deriving DecidableEq, Repr

/-- The mutable collection state of `fetchShows`: the `shows` array and the
`seen` de-duplication set (insertion order kept). -/
structure ShowState where
  shows : List ShowFull
  seen : List String
deriving DecidableEq, Repr

/-- The de-duplication key `formatTimeET(startTime) + "|" + name` of a
collected show. -/
def keyOfShow (s : ShowFull) : String :=
  s.time ++ "|" ++ s.name

/-- Lines 148–156 (and their copies at 169–177, 186–194) of
`src/calendar.js`: compute the dedup key, skip if seen, else record the key
and push the show. -/
def pushShow (st : ShowState) (startTime : Int) (name : String) : ShowState :=
  let key := formatTimeET startTime ++ "|" ++ name
  if key ∈ st.seen then st
  else { shows := st.shows ++ [⟨formatTimeET startTime, name, startTime⟩]
       , seen := st.seen ++ [key] }

/-- `windowStart` of the recurrence expansion
(`new Date(targetDate + "T04:00:00Z")`). -/
def rruleAfterOf (t : DateKey) : Int :=
  daysFromCivil t * 86400000 + 14400000

/-- `windowEnd` of the recurrence expansion: the following calendar day at
`05:59:59` UTC.  (`setDate(getDate() + 1)` on the 04:00 UTC instant lands
between 03:00 and 05:00 UTC of the next day for an Eastern-localized
process, so `toISOString().slice(0, 10)` is always the next civil day.) -/
def rruleBeforeOf (t : DateKey) : Int :=
  (daysFromCivil t + 1) * 86400000 + 21599000

/-- The body of the loop over expanded occurrences (lines 118–157 of
`src/calendar.js`): override substitution, exclusion check, target-date
check, summary cleaning, de-duplicated push. -/
def baseOccStep (targetDate : DateKey) (ev : VEvent) (st : ShowState)
    (occ : Int) : ShowState :=
  let eff :=
    match ev.recurrences with
    | some recs =>
      match Option.orElse (lookupRec recs (RecKey.date targetDate))
          (fun _ => lookupRec recs (RecKey.instant occ)) with
      | some ov =>
        (if ov.summary = "" then ev.summary else ov.summary,
         ov.start.getD occ)
      | none => (ev.summary, occ)
    | none => (ev.summary, occ)
  let excluded :=
    match ev.exdate with
    | some exs => exs.any (fun d => decide (toETDateString d = targetDate))
    | none => false
  if excluded then st
  else if toETDateString eff.2 ≠ targetDate then st
  else
    let name := cleanSummary eff.1
    if name = "" then st
    else pushShow st eff.2 name

/-- The body of the override-relocation scan (lines 160–178 of
`src/calendar.js`): skip overrides without a start, keep only those whose
effective start falls on the target date, then clean and push. -/
def relocStep (targetDate : DateKey) (ev : VEvent) (st : ShowState)
    (ov : Override) : ShowState :=
  match ov.start with
  | none => st
  | some s =>
    if toETDateString s ≠ targetDate then st
    else
      let name := cleanSummary (if ov.summary = "" then ev.summary else ov.summary)
      if name = "" then st
      else pushShow st s name

/-- The one-off branch (lines 180–195 of `src/calendar.js`). -/
def oneOffStep (targetDate : DateKey) (ev : VEvent) (st : ShowState)
    (s : Int) : ShowState :=
  if toETDateString s ≠ targetDate then st
  else
    let name := cleanSummary ev.summary
    if name = "" then st
    else pushShow st s name

/-- Processing of one feed entry (lines 107–200 of `src/calendar.js`).
A malformed recurrence rule makes the inner `catch` skip the whole event
(`continue`); the remaining per-event processing is total, so the outer
`try`/`catch` has no other live failure path in this model. -/
def eventStep (targetDate : DateKey) (st : ShowState) (ev : VEvent) :
    ShowState :=
  if ev.type ≠ "VEVENT" then st
  else
    match ev.rrule with
    | some r =>
      match r.between (rruleAfterOf targetDate) (rruleBeforeOf targetDate) true with
      | Except.error _ => st
      | Except.ok occurrences =>
        let st1 := occurrences.foldl (baseOccStep targetDate ev) st
        match ev.recurrences with
        | some recs => (recs.map Prod.snd).foldl (relocStep targetDate ev) st1
        | none => st1
    | none =>
      match ev.start with
      | some s => oneOffStep targetDate ev st s
      | none => st

/-- The full collection loop of `fetchShows` over the feed. -/
def collectShows (targetDate : DateKey) (feed : List VEvent) : ShowState :=
  feed.foldl (eventStep targetDate) { shows := [], seen := [] }

/-- `shows.sort((a, b) => a._sort - b._sort)` — JS `Array.prototype.sort` is
stable, so it is the stable merge sort by the `_sort` key. -/
def sortedShows (targetDate : DateKey) (feed : List VEvent) : List ShowFull :=
  (collectShows targetDate feed).shows.mergeSort
    (fun a b => decide (a.sortKey ≤ b.sortKey))

/-- An output show `{ time, name }` (after `delete s._sort`). -/
structure ShowOut where
  time : String
  name : String
deriving DecidableEq, Repr

/-- The schedule object returned by `fetchShows`. -/
structure Schedule where
  day : String
  month : String
  dayNum : String
  year : String
  shows : List ShowOut
deriving DecidableEq, Repr

/-- `fetchShows` of `src/calendar.js`, specialized past the I/O: the target
date is already resolved and the feed already fetched and parsed. -/
def fetchShows (targetDate : DateKey) (feed : List VEvent) : Schedule :=
  let info := getETDateInfo targetDate
  { day := info.day, month := info.month, dayNum := info.dayNum
  , year := info.year
  , shows := (sortedShows targetDate feed).map (fun s => ⟨s.time, s.name⟩) }

/-- Outcome of the schedule check in `main` of `src/generate.js`. -/
inductive MainOutcome where
  | noShowsExit (message : String)
  | proceed (sched : Schedule)
deriving DecidableEq, Repr

/-- The empty-schedule check of `main` in `src/generate.js`
(`if (shows.length === 0) { console.error(...); process.exit(1); }`). -/
def generateMain (sched : Schedule) : MainOutcome :=
  if sched.shows.length = 0 then
    MainOutcome.noShowsExit
      ("No shows found for " ++ sched.day ++ " " ++ sched.month ++ " "
        ++ sched.dayNum ++ ". Check the calendar.")
  else MainOutcome.proceed sched

/-! ### Helper lemmas -/

/-- If any exclusion instant falls on the target date key, the occurrence
loop body drops its candidate unchanged. -/
theorem baseOccStep_excluded (targetDate : DateKey) (ev : VEvent)
    (exs : List Int) (hex : ev.exdate = some exs)
    (hhit : exs.any (fun d => decide (toETDateString d = targetDate)) = true)
    (st : ShowState) (occ : Int) :
    baseOccStep targetDate ev st occ = st := by
  unfold baseOccStep
  rw [hex]
  simp [hhit]

/-- Folding the occurrence loop over any candidate list is the identity when
an exclusion falls on the target date. -/
theorem foldl_baseOccStep_excluded (targetDate : DateKey) (ev : VEvent)
    (exs : List Int) (hex : ev.exdate = some exs)
    (hhit : exs.any (fun d => decide (toETDateString d = targetDate)) = true) :
    ∀ (occs : List Int) (st : ShowState),
      occs.foldl (baseOccStep targetDate ev) st = st := by
  intro occs
  induction occs with
  | nil => intro st; rfl
  | cons o os ih =>
    intro st
    rw [List.foldl_cons, baseOccStep_excluded targetDate ev exs hex hhit st o, ih]

/-! ### Concrete fixtures (used by witnesses)

Instants: `1768662000000` = 2026-01-17T15:00:00Z (10:00 EST Sat Jan 17),
`1769266800000` = 2026-01-24T15:00:00Z (10:00 EST Sat Jan 24),
`1769270400000` = 2026-01-24T16:00:00Z (11:00 EST Sat Jan 24). -/

def keyJan17 : DateKey := { y := 2026, m := 1, d := 17 }

def keyJan24 : DateKey := { y := 2026, m := 1, d := 24 }

/-- Weekly recurring "🎵Deep Cuts", Saturdays 10:00 Eastern. -/
def evDeepCuts : VEvent :=
  { type := "VEVENT", summary := "🎵Deep Cuts", start := some 1768662000000
  , rrule := some { occs := [1768662000000, 1769266800000], malformed := false }
  , recurrences := none, exdate := none }

/-- One-off restream event on 2026-01-24. -/
def evRestream : VEvent :=
  { type := "VEVENT", summary := "Weekly Restream of Deep Cuts"
  , start := some 1769266800000, rrule := none, recurrences := none
  , exdate := none }

/-- Override moving the Jan 17 occurrence to Jan 24 11:00 Eastern. -/
def ovMoved : Override := { summary := "", start := some 1769270400000 }

/-- Weekly show whose sole base occurrence (Jan 17) is rescheduled to
Jan 24 by `ovMoved`. -/
def evMoved : VEvent :=
  { type := "VEVENT", summary := "Moved Show", start := some 1768662000000
  , rrule := some { occs := [1768662000000], malformed := false }
  , recurrences := some [(RecKey.date keyJan17, ovMoved)], exdate := none }

/-- Weekly show with an exclusion instant on Jan 24. -/
def evExcluded : VEvent :=
  { type := "VEVENT", summary := "Excluded Show", start := some 1769266800000
  , rrule := some { occs := [1769266800000], malformed := false }
  , recurrences := none, exdate := some [1769266800000] }

/-- Event whose recurrence rule fails to expand. -/
def evMalformed : VEvent :=
  { type := "VEVENT", summary := "Broken Rule", start := some 1769266800000
  , rrule := some { occs := [1769266800000], malformed := true }
  , recurrences := none, exdate := none }

/-! ### Claim theorems -/

/-- C2.  Exclusion suppression: if a recurring event defines exclusions and
any exclusion instant falls on the target date key (date-grained comparison
via `toETDateString`), then every candidate occurrence produced by recurrence
expansion for that date is dropped — the occurrence loop leaves the
collection state unchanged for every candidate list. -/
theorem exclusion_suppresses_expansion (targetDate : DateKey) (ev : VEvent)
    (exs : List Int) (hex : ev.exdate = some exs)
    (hhit : exs.any (fun d => decide (toETDateString d = targetDate)) = true) :
    ∀ (occs : List Int) (st : ShowState),
      occs.foldl (baseOccStep targetDate ev) st = st :=
  foldl_baseOccStep_excluded targetDate ev exs hex hhit

/-- Witness for C2: the Jan 24 exclusion of `evExcluded` drops its matching
Jan 24 base occurrence. -/
theorem exclusion_suppresses_expansion_witness :
    [(1769266800000 : Int)].foldl (baseOccStep keyJan24 evExcluded)
        { shows := [], seen := [] }
      = { shows := [], seen := [] } :=
  exclusion_suppresses_expansion keyJan24 evExcluded [1769266800000]
    (by decide) (by decide) [1769266800000] { shows := [], seen := [] }

/-- C5.  Weekday resolution: for any of the seven weekday names, the
resolver returns the date `diff = (targetIndex - todayIndex + 7) mod 7` days
ahead of today (the next occurrence of that weekday on or after today); in
particular on a day that is already that weekday it returns today's date. -/
theorem resolveDayName_next_weekday (z : Int) (name : String) (idx : Nat)
    (hidx : List.indexOf? name DAYS = some idx) :
    resolveDayName name z
        = some (civilFromDays (z + (((idx : Int) - (z + 4) % 7 + 7) % 7)))
      ∧ ((z + 4) % 7 = (idx : Int) →
          resolveDayName name z = some (civilFromDays z)) := by
  constructor
  · unfold resolveDayName
    rw [hidx]
    by_cases h : ((idx : Int) - (z + 4) % 7 + 7) % 7 = 0
    · simp only [h, if_pos rfl]
      norm_num
    · simp only [if_neg h]
  · intro h
    unfold resolveDayName
    rw [hidx]
    have h0 : ((idx : Int) - (z + 4) % 7 + 7) % 7 = 0 := by omega
    simp only [h0, if_pos rfl]
    norm_num

/-- Witness for C5: resolving `"Saturday"` on Saturday 2026-01-24
(day number 20477) yields 2026-01-24 itself. -/
theorem resolveDayName_next_weekday_witness :
    resolveDayName "Saturday" 20477
        = some (civilFromDays (20477 + ((((6 : Nat) : Int) - (20477 + 4) % 7 + 7) % 7)))
      ∧ resolveDayName "Saturday" 20477 = some (civilFromDays 20477) :=
  ⟨(resolveDayName_next_weekday 20477 "Saturday" 6 (by decide)).1,
   (resolveDayName_next_weekday 20477 "Saturday" 6 (by decide)).2 (by decide)⟩

/-- C6.  Summary cleaning: a summary containing "restream"
(case-insensitively) is cleaned to the empty name; otherwise the leading run
of emoji / emoji-component / whitespace characters is stripped and the result
trimmed; a candidate whose cleaned name is empty contributes no Show; and a
one-off event titled "Weekly Restream of Deep Cuts" yields zero Shows. -/
theorem cleanSummary_restream_filter :
    (∀ s : String, hasRestream s = true → cleanSummary s = "")
  ∧ (∀ s : String, s ≠ "" → hasRestream s = false →
      cleanSummary s = String.mk (trimChars (s.data.dropWhile isEmojiOrSpace)))
  ∧ (∀ (target : DateKey) (ev : VEvent) (st : ShowState) (s : Int),
      cleanSummary ev.summary = "" → oneOffStep target ev st s = st)
  ∧ (∀ (target : DateKey) (ms : Int),
      (fetchShows target
        [{ type := "VEVENT", summary := "Weekly Restream of Deep Cuts"
         , start := some ms, rrule := none, recurrences := none
         , exdate := none }]).shows = []) := by
  refine ⟨?_, ?_, ?_, ?_⟩
  · intro s h
    by_cases hs : s = "" <;> simp [cleanSummary, hs, h]
  · intro s hs hr
    simp [cleanSummary, hs, hr]
  · intro target ev st s h
    unfold oneOffStep
    by_cases hd : toETDateString s ≠ target
    · simp [hd]
    · simp [hd, h]
  · intro target ms
    have hre : cleanSummary "Weekly Restream of Deep Cuts" = "" := by decide
    simp only [fetchShows, sortedShows, collectShows, List.foldl_cons,
      List.foldl_nil, eventStep, oneOffStep, hre]
    split
    · simp
    · simp [hre]

/-- Witness for C6 at concrete inputs. -/
theorem cleanSummary_restream_filter_witness :
    cleanSummary "Weekly Restream of Deep Cuts" = ""
  ∧ cleanSummary "🎵Deep Cuts"
      = String.mk (trimChars ("🎵Deep Cuts".data.dropWhile isEmojiOrSpace))
  ∧ oneOffStep keyJan24 evRestream { shows := [], seen := [] } 1769266800000
      = { shows := [], seen := [] }
  ∧ (fetchShows keyJan24
      [{ type := "VEVENT", summary := "Weekly Restream of Deep Cuts"
       , start := some 1769266800000, rrule := none, recurrences := none
       , exdate := none }]).shows = [] :=
  ⟨cleanSummary_restream_filter.1 _ (by decide),
   cleanSummary_restream_filter.2.1 _ (by decide) (by decide),
   cleanSummary_restream_filter.2.2.1 keyJan24 evRestream
     { shows := [], seen := [] } 1769266800000 (by decide),
   cleanSummary_restream_filter.2.2.2 keyJan24 1769266800000⟩

/-- C8.  Per-event failure containment: an event whose recurrence rule fails
to expand contributes zero candidates and the assembler's loop over the rest
of the feed is unaffected — removing the malformed event from the feed leaves
both the collected state and the returned schedule unchanged. -/
theorem malformed_rule_contained (target : DateKey)
    (pre post : List VEvent) (ev : VEvent) (r : RRule)
    (htype : ev.type = "VEVENT") (hr : ev.rrule = some r)
    (hmal : r.malformed = true) :
    collectShows target (pre ++ ev :: post) = collectShows target (pre ++ post)
    ∧ fetchShows target (pre ++ ev :: post) = fetchShows target (pre ++ post) := by
  have hstep : ∀ st, eventStep target st ev = st := by
    intro st
    unfold eventStep
    rw [hr]
    simp [htype, RRule.between, hmal]
  have hc : collectShows target (pre ++ ev :: post)
      = collectShows target (pre ++ post) := by
    unfold collectShows
    rw [List.foldl_append, List.foldl_cons, hstep, ← List.foldl_append]
  refine ⟨hc, ?_⟩
  unfold fetchShows sortedShows
  rw [hc]

/-- Witness for C8: dropping the malformed event from a three-event feed
changes nothing. -/
theorem malformed_rule_contained_witness :
    collectShows keyJan24 ([evDeepCuts] ++ evMalformed :: [evRestream])
        = collectShows keyJan24 ([evDeepCuts] ++ [evRestream])
    ∧ fetchShows keyJan24 ([evDeepCuts] ++ evMalformed :: [evRestream])
        = fetchShows keyJan24 ([evDeepCuts] ++ [evRestream]) :=
  malformed_rule_contained keyJan24 [evDeepCuts] [evRestream] evMalformed
    { occs := [1769266800000], malformed := true }
    (by decide) (by decide) (by decide)

/-- C9.  NoShowsFound: when no event matches the target date, `fetchShows`
still returns (does not throw) a schedule carrying the target date's display
metadata with an empty shows sequence, and the caller in `generate.js`
detects the condition and reports it. -/
theorem no_shows_found (target : DateKey) (feed : List VEvent)
    (h : (collectShows target feed).shows = []) :
    fetchShows target feed
        = { day := (getETDateInfo target).day
          , month := (getETDateInfo target).month
          , dayNum := (getETDateInfo target).dayNum
          , year := (getETDateInfo target).year
          , shows := [] }
    ∧ generateMain (fetchShows target feed)
        = MainOutcome.noShowsExit
            ("No shows found for " ++ (getETDateInfo target).day ++ " "
              ++ (getETDateInfo target).month ++ " "
              ++ (getETDateInfo target).dayNum ++ ". Check the calendar.") := by
  have hs : sortedShows target feed = [] := by
    unfold sortedShows
    rw [h]
    simp
  have hf : fetchShows target feed
      = { day := (getETDateInfo target).day
        , month := (getETDateInfo target).month
        , dayNum := (getETDateInfo target).dayNum
        , year := (getETDateInfo target).year
        , shows := [] } := by
    unfold fetchShows
    rw [hs]
    rfl
  refine ⟨hf, ?_⟩
  rw [hf]
  rfl

/-- Witness for C9: the empty feed for 2026-01-24. -/
theorem no_shows_found_witness :
    fetchShows keyJan24 []
        = { day := (getETDateInfo keyJan24).day
          , month := (getETDateInfo keyJan24).month
          , dayNum := (getETDateInfo keyJan24).dayNum
          , year := (getETDateInfo keyJan24).year
          , shows := [] }
    ∧ generateMain (fetchShows keyJan24 [])
        = MainOutcome.noShowsExit
            ("No shows found for " ++ (getETDateInfo keyJan24).day ++ " "
              ++ (getETDateInfo keyJan24).month ++ " "
              ++ (getETDateInfo keyJan24).dayNum ++ ". Check the calendar.") :=
  no_shows_found keyJan24 [] rfl

/-- A fold whose step fixes the state is the identity. -/
theorem foldl_fixed {α β : Type} (f : β → α → β)
    (hf : ∀ st a, f st a = st) :
    ∀ (l : List α) (st : β), l.foldl f st = st := by
  intro l
  induction l with
  | nil => intro st; rfl
  | cons x xs ih => intro st; rw [List.foldl_cons, hf, ih]

/-- C10.  Relocation-scan edge cases: an override without a replacement
start is always skipped by the relocation scan, and occurrences added by the
scan are not subjected to the exclusion check — an exclusion falling on the
target date still lets an override-relocated occurrence through. -/
theorem reloc_scan_edge_cases :
    (∀ (target : DateKey) (ev : VEvent) (st : ShowState) (ov : Override),
       ov.start = none → relocStep target ev st ov = st)
  ∧ (∀ (target : DateKey) (ev : VEvent) (r : RRule) (exs : List Int)
       (k : RecKey) (ov : Override) (s : Int) (st : ShowState),
       ev.type = "VEVENT" → ev.rrule = some r → r.malformed = false →
       ev.recurrences = some [(k, ov)] →
       ev.exdate = some exs →
       exs.any (fun d => decide (toETDateString d = target)) = true →
       ov.start = some s → toETDateString s = target →
       cleanSummary (if ov.summary = "" then ev.summary else ov.summary) ≠ "" →
       (formatTimeET s ++ "|"
          ++ cleanSummary (if ov.summary = "" then ev.summary else ov.summary))
         ∉ st.seen →
       eventStep target st ev
         = { shows := st.shows
               ++ [⟨formatTimeET s,
                    cleanSummary (if ov.summary = "" then ev.summary else ov.summary),
                    s⟩]
           , seen := st.seen
               ++ [formatTimeET s ++ "|"
                    ++ cleanSummary (if ov.summary = "" then ev.summary else ov.summary)] }) := by
  constructor
  · intro target ev st ov h
    unfold relocStep
    rw [h]
  · intro target ev r exs k ov s st htype hrr hmal hrecs hexd hhit hovs hdate hname hkey
    unfold eventStep
    rw [htype, hrr]
    simp only [ne_eq, not_true_eq_false, if_false, RRule.between, hmal,
      Bool.false_eq_true, if_false]
    rw [foldl_fixed _ (fun st2 occ => baseOccStep_excluded target ev exs hexd hhit st2 occ),
      hrecs]
    simp only [List.map_cons, List.map_nil, List.foldl_cons, List.foldl_nil]
    unfold relocStep
    rw [hovs]
    simp only [hdate, ne_eq, not_true_eq_false, if_false]
    rw [if_neg hname]
    unfold pushShow
    rw [if_neg hkey]

/-- Witness for C10: `evMoved` with an added Jan 24 exclusion still yields
its relocated Jan 24 occurrence, and a start-less override is skipped. -/
theorem reloc_scan_edge_cases_witness :
    relocStep keyJan24 evRestream { shows := [], seen := [] }
        { summary := "Changed Title Only", start := none }
      = { shows := [], seen := [] }
    ∧ eventStep keyJan24 { shows := [], seen := [] }
        { type := "VEVENT", summary := "Moved Show", start := some 1768662000000
        , rrule := some { occs := [1768662000000], malformed := false }
        , recurrences := some [(RecKey.date keyJan17, ovMoved)]
        , exdate := some [1769266800000] }
      = { shows := [⟨formatTimeET 1769270400000,
            cleanSummary (if ovMoved.summary = "" then "Moved Show" else ovMoved.summary),
            1769270400000⟩]
        , seen := [formatTimeET 1769270400000 ++ "|"
            ++ cleanSummary (if ovMoved.summary = "" then "Moved Show" else ovMoved.summary)] } :=
  ⟨reloc_scan_edge_cases.1 keyJan24 evRestream { shows := [], seen := [] }
      { summary := "Changed Title Only", start := none } rfl,
   reloc_scan_edge_cases.2 keyJan24
      { type := "VEVENT", summary := "Moved Show", start := some 1768662000000
      , rrule := some { occs := [1768662000000], malformed := false }
      , recurrences := some [(RecKey.date keyJan17, ovMoved)]
      , exdate := some [1769266800000] }
      { occs := [1768662000000], malformed := false } [1769266800000]
      (RecKey.date keyJan17) ovMoved 1769270400000 { shows := [], seen := [] }
      rfl rfl rfl rfl rfl (by decide) rfl (by decide) (by decide) (by decide)⟩

/-- C1.  Override relocation: a recurring event whose base occurrence falls
on date `A` but whose override (keyed by `A`, as node-ical keys overrides)
moves it to date `B` appears in date `B`'s schedule — even though the
un-overridden instant `occA` lies outside `B`'s expansion window — and
contributes nothing to date `A`'s schedule. -/
theorem override_relocation
    (A B : DateKey) (occA sB : Int) (ov : Override) (r : RRule) (ev : VEvent)
    (htype : ev.type = "VEVENT")
    (hrr : ev.rrule = some r)
    (hocc : r.occs = [occA])
    (hmal : r.malformed = false)
    (hrecs : ev.recurrences = some [(RecKey.date A, ov)])
    (hovs : ov.start = some sB)
    (hA : toETDateString occA = A)
    (hB : toETDateString sB = B)
    (hAB : A ≠ B)
    (hwin : ¬ (rruleAfterOf B ≤ occA ∧ occA ≤ rruleBeforeOf B))
    (hname : cleanSummary (if ov.summary = "" then ev.summary else ov.summary) ≠ "") :
    (fetchShows B [ev]).shows
        = [⟨formatTimeET sB,
            cleanSummary (if ov.summary = "" then ev.summary else ov.summary)⟩]
    ∧ (fetchShows A [ev]).shows = [] := by
  have hlook : ∀ occ : Int,
      Option.orElse (lookupRec [(RecKey.date A, ov)] (RecKey.date A))
        (fun _ => lookupRec [(RecKey.date A, ov)] (RecKey.instant occ))
      = some ov := by
    intro occ
    simp [lookupRec, Option.orElse]
  have htypeNe : ¬ (ev.type ≠ "VEVENT") := fun h => h htype
  constructor
  · -- date B: the base expansion window misses occA, the relocation scan hits
    have hbet : r.between (rruleAfterOf B) (rruleBeforeOf B) true
        = Except.ok [] := by
      unfold RRule.between
      rw [if_neg (by rw [hmal]; exact Bool.false_ne_true), hocc]
      simp only [if_true, List.filter_cons, List.filter_nil, Bool.and_eq_true,
        decide_eq_true_eq]
      rw [if_neg hwin]
    have hstep : eventStep B { shows := [], seen := [] } ev
        = { shows := [⟨formatTimeET sB,
              cleanSummary (if ov.summary = "" then ev.summary else ov.summary), sB⟩]
          , seen := [formatTimeET sB ++ "|"
              ++ cleanSummary (if ov.summary = "" then ev.summary else ov.summary)] } := by
      unfold eventStep
      rw [if_neg htypeNe, hrr]
      dsimp only
      rw [hbet]
      dsimp only
      rw [hrecs]
      dsimp only [List.foldl_nil, List.map_cons, List.map_nil, List.foldl_cons]
      unfold relocStep
      rw [hovs]
      dsimp only
      rw [if_neg (fun h => h hB), if_neg hname]
      unfold pushShow
      rw [if_neg (List.not_mem_nil _)]
      simp
    unfold fetchShows sortedShows collectShows
    rw [List.foldl_cons, List.foldl_nil, hstep]
    simp [List.mergeSort]
  · -- date A: every base candidate is moved off A, the scan start is off A
    have hBneA : toETDateString sB ≠ A := by
      rw [hB]
      exact fun hc => hAB hc.symm
    have hbase : ∀ (st : ShowState) (occ : Int), baseOccStep A ev st occ = st := by
      intro st occ
      unfold baseOccStep
      rw [hrecs]
      dsimp only
      rw [hlook occ]
      dsimp only
      rw [hovs]
      simp only [Option.getD_some]
      by_cases hex : (match ev.exdate with
          | some exs => exs.any fun d => decide (toETDateString d = A)
          | none => false) = true
      · rw [if_pos hex]
      · rw [if_neg hex, if_pos hBneA]
    have hstep : eventStep A { shows := [], seen := [] } ev
        = { shows := [], seen := [] } := by
      unfold eventStep
      have hbet : r.between (rruleAfterOf A) (rruleBeforeOf A) true
          = Except.ok (r.occs.filter (fun t =>
              decide (rruleAfterOf A ≤ t) && decide (t ≤ rruleBeforeOf A))) := by
        unfold RRule.between
        rw [if_neg (by rw [hmal]; exact Bool.false_ne_true)]
        simp only [if_true]
      rw [if_neg htypeNe, hrr]
      dsimp only
      rw [hbet]
      dsimp only
      rw [hrecs]
      dsimp only
      rw [foldl_fixed _ hbase]
      dsimp only [List.map_cons, List.map_nil, List.foldl_cons, List.foldl_nil]
      unfold relocStep
      rw [hovs]
      dsimp only
      rw [if_pos hBneA]
    unfold fetchShows sortedShows collectShows
    rw [List.foldl_cons, List.foldl_nil, hstep]
    simp

/-- Witness for C1: `evMoved` (base Saturday Jan 17, override moved to
Saturday Jan 24 11:00 Eastern) appears on Jan 24 and not on Jan 17. -/
theorem override_relocation_witness :
    (fetchShows keyJan24 [evMoved]).shows
        = [⟨formatTimeET 1769270400000,
            cleanSummary (if ovMoved.summary = "" then evMoved.summary else ovMoved.summary)⟩]
    ∧ (fetchShows keyJan17 [evMoved]).shows = [] :=
  override_relocation keyJan17 keyJan24 1768662000000 1769270400000 ovMoved
    { occs := [1768662000000], malformed := false } evMoved
    rfl rfl rfl rfl rfl rfl (by decide) (by decide) (by decide) (by decide) (by decide)

/-- `pushShow` either leaves the state unchanged or appends exactly one show
together with its de-duplication key. -/
theorem pushShow_cases (st : ShowState) (t : Int) (n : String) :
    pushShow st t n = st ∨
      pushShow st t n
        = { shows := st.shows ++ [⟨formatTimeET t, n, t⟩]
          , seen := st.seen ++ [formatTimeET t ++ "|" ++ n] } := by
  unfold pushShow
  dsimp only
  split
  · exact Or.inl rfl
  · exact Or.inr rfl

/-- The occurrence-loop body either drops its candidate or pushes an instant
that passed the target-date check with a nonempty cleaned name. -/
theorem baseOccStep_cases (target : DateKey) (ev : VEvent) (st : ShowState)
    (occ : Int) :
    baseOccStep target ev st occ = st ∨
      ∃ t n, toETDateString t = target ∧ n ≠ "" ∧
        baseOccStep target ev st occ = pushShow st t n := by
  unfold baseOccStep
  dsimp only
  repeat' split
  all_goals
    first
      | exact Or.inl rfl
      | (refine Or.inr ⟨_, _, ?_, ?_, rfl⟩ <;> simp_all)

/-- The relocation-scan body either drops its override or pushes an instant
that passed the target-date check with a nonempty cleaned name. -/
theorem relocStep_cases (target : DateKey) (ev : VEvent) (st : ShowState)
    (ov : Override) :
    relocStep target ev st ov = st ∨
      ∃ t n, toETDateString t = target ∧ n ≠ "" ∧
        relocStep target ev st ov = pushShow st t n := by
  unfold relocStep
  dsimp only
  repeat' split
  all_goals
    first
      | exact Or.inl rfl
      | (refine Or.inr ⟨_, _, ?_, ?_, rfl⟩ <;> simp_all)

/-- The one-off branch either drops the event or pushes an instant that
passed the target-date check with a nonempty cleaned name. -/
theorem oneOffStep_cases (target : DateKey) (ev : VEvent) (st : ShowState)
    (s : Int) :
    oneOffStep target ev st s = st ∨
      ∃ t n, toETDateString t = target ∧ n ≠ "" ∧
        oneOffStep target ev st s = pushShow st t n := by
  unfold oneOffStep
  dsimp only
  repeat' split
  all_goals
    first
      | exact Or.inl rfl
      | (refine Or.inr ⟨_, _, ?_, ?_, rfl⟩ <;> simp_all)

/-- A drop-or-push step can only extend `shows` with instants on the target
date. -/
theorem step_mem_of_cases {α : Type} {f : ShowState → α → ShowState}
    {target : DateKey}
    (hf : ∀ st a, f st a = st ∨
      ∃ t n, toETDateString t = target ∧ n ≠ "" ∧ f st a = pushShow st t n) :
    ∀ (st : ShowState) (a : α) (s : ShowFull),
      s ∈ (f st a).shows → s ∈ st.shows ∨ toETDateString s.sortKey = target := by
  intro st a s hs
  rcases hf st a with he | ⟨t, n, hdate, hn, he⟩
  · rw [he] at hs
    exact Or.inl hs
  · rw [he] at hs
    rcases pushShow_cases st t n with hp | hp
    · rw [hp] at hs
      exact Or.inl hs
    · rw [hp] at hs
      rcases List.mem_append.mp hs with h1 | h1
      · exact Or.inl h1
      · right
        rw [List.mem_singleton.mp h1]
        exact hdate
/-- Membership propagation through a fold of shows-extending steps. -/
theorem foldl_mem_shows {α : Type} {f : ShowState → α → ShowState}
    {P : ShowFull → Prop}
    (hf : ∀ (st : ShowState) (a : α) (s : ShowFull),
      s ∈ (f st a).shows → s ∈ st.shows ∨ P s) :
    ∀ (l : List α) (st : ShowState) (s : ShowFull),
      s ∈ (l.foldl f st).shows → s ∈ st.shows ∨ P s := by
  intro l
  induction l with
  | nil => intro st s hs; exact Or.inl hs
  | cons a as ih =>
    intro st s hs
    rw [List.foldl_cons] at hs
    rcases ih (f st a) s hs with h | h
    · exact hf st a s h
    · exact Or.inr h

/-- Every show an event contributes lies on the target date. -/
theorem eventStep_shows_dated (target : DateKey) (st : ShowState)
    (ev : VEvent) (s : ShowFull)
    (hs : s ∈ (eventStep target st ev).shows) :
    s ∈ st.shows ∨ toETDateString s.sortKey = target := by
  unfold eventStep at hs
  split at hs
  · exact Or.inl hs
  · split at hs
    · split at hs
      · exact Or.inl hs
      · split at hs
        · rcases foldl_mem_shows
            (step_mem_of_cases (fun st2 ov => relocStep_cases target _ st2 ov))
            _ _ _ hs with h | h
          · exact foldl_mem_shows
              (step_mem_of_cases (fun st2 occ => baseOccStep_cases target _ st2 occ))
              _ _ _ h
          · exact Or.inr h
        · exact foldl_mem_shows
            (step_mem_of_cases (fun st2 occ => baseOccStep_cases target _ st2 occ))
            _ _ _ hs
    · split at hs
      · exact step_mem_of_cases
          (fun st2 x => oneOffStep_cases target _ st2 x) _ _ _ hs
      · exact Or.inl hs

/-- Every collected show lies on the target date. -/
theorem collectShows_dated (target : DateKey) (feed : List VEvent)
    (s : ShowFull) (hs : s ∈ (collectShows target feed).shows) :
    toETDateString s.sortKey = target := by
  unfold collectShows at hs
  rcases foldl_mem_shows
      (fun st2 ev s2 hs2 => eventStep_shows_dated target st2 ev s2 hs2)
      feed { shows := [], seen := [] } s hs with h | h
  · cases h
  · exact h

/-- C7.  Expansion window: the window is the target date at 04:00 UTC
through the following calendar day at 05:59:59 UTC; a well-formed rule is
expanded over it inclusively (every rule instant inside the window is a
candidate); and every show that survives collection has an effective start
whose fixed-timezone date key equals the target date. -/
theorem expansion_window_and_date_filter (t : DateKey) (r : RRule)
    (feed : List VEvent) :
    rruleAfterOf t = daysFromCivil t * 86400000 + 4 * 3600000
  ∧ rruleBeforeOf t
      = (daysFromCivil t + 1) * 86400000 + (5 * 3600000 + 59 * 60000 + 59 * 1000)
  ∧ (r.malformed = false →
      r.between (rruleAfterOf t) (rruleBeforeOf t) true
        = Except.ok (r.occs.filter (fun x =>
            decide (rruleAfterOf t ≤ x) && decide (x ≤ rruleBeforeOf t))))
  ∧ (∀ s ∈ (collectShows t feed).shows, toETDateString s.sortKey = t) := by
  refine ⟨by norm_num [rruleAfterOf], by norm_num [rruleBeforeOf], ?_, ?_⟩
  · intro hmal
    unfold RRule.between
    rw [if_neg (by rw [hmal]; exact Bool.false_ne_true)]
    simp only [if_true]
  · intro s hs
    exact collectShows_dated t feed s hs

/-- Witness for C7 at the Jan 24 target, the Deep Cuts rule and feed. -/
theorem expansion_window_and_date_filter_witness :
    rruleAfterOf keyJan24 = daysFromCivil keyJan24 * 86400000 + 4 * 3600000
  ∧ rruleBeforeOf keyJan24
      = (daysFromCivil keyJan24 + 1) * 86400000
          + (5 * 3600000 + 59 * 60000 + 59 * 1000)
  ∧ RRule.between { occs := [1768662000000, 1769266800000], malformed := false }
        (rruleAfterOf keyJan24) (rruleBeforeOf keyJan24) true
      = Except.ok
          (List.filter (fun x =>
              decide (rruleAfterOf keyJan24 ≤ x) && decide (x ≤ rruleBeforeOf keyJan24))
            [1768662000000, 1769266800000])
  ∧ toETDateString
        (⟨formatTimeET 1769266800000, cleanSummary "🎵Deep Cuts", 1769266800000⟩
          : ShowFull).sortKey
      = keyJan24 :=
  ⟨(expansion_window_and_date_filter keyJan24
      { occs := [1768662000000, 1769266800000], malformed := false } [evDeepCuts]).1,
   (expansion_window_and_date_filter keyJan24
      { occs := [1768662000000, 1769266800000], malformed := false } [evDeepCuts]).2.1,
   (expansion_window_and_date_filter keyJan24
      { occs := [1768662000000, 1769266800000], malformed := false } [evDeepCuts]).2.2.1 rfl,
   (expansion_window_and_date_filter keyJan24
      { occs := [1768662000000, 1769266800000], malformed := false } [evDeepCuts]).2.2.2
      ⟨formatTimeET 1769266800000, cleanSummary "🎵Deep Cuts", 1769266800000⟩
      (by decide)⟩

/-- The de-duplication invariant: `seen` is exactly the list of keys of the
collected shows, without duplicates. -/
def InvState (st : ShowState) : Prop :=
  st.seen = st.shows.map keyOfShow ∧ st.seen.Nodup

theorem inv_pushShow (st : ShowState) (t : Int) (n : String)
    (h : InvState st) : InvState (pushShow st t n) := by
  unfold pushShow
  dsimp only
  split
  · exact h
  · next hk =>
    constructor
    · dsimp only
      rw [h.1]
      simp [keyOfShow]
    · dsimp only
      rw [List.nodup_append]
      refine ⟨h.2, List.nodup_singleton _, ?_⟩
      intro x hx hmem
      rw [List.mem_singleton.mp hmem] at hx
      exact hk hx

/-- A drop-or-push step preserves the de-duplication invariant. -/
theorem inv_of_cases {α : Type} {f : ShowState → α → ShowState}
    {target : DateKey}
    (hf : ∀ st a, f st a = st ∨
      ∃ t n, toETDateString t = target ∧ n ≠ "" ∧ f st a = pushShow st t n) :
    ∀ (st : ShowState) (a : α), InvState st → InvState (f st a) := by
  intro st a h
  rcases hf st a with he | ⟨t, n, _, _, he⟩
  · rw [he]; exact h
  · rw [he]; exact inv_pushShow st t n h

/-- Folds of invariant-preserving steps preserve the invariant. -/
theorem foldl_inv {α : Type} {f : ShowState → α → ShowState}
    (hf : ∀ (st : ShowState) (a : α), InvState st → InvState (f st a)) :
    ∀ (l : List α) (st : ShowState), InvState st → InvState (l.foldl f st) := by
  intro l
  induction l with
  | nil => intro st h; exact h
  | cons a as ih =>
    intro st h
    rw [List.foldl_cons]
    exact ih (f st a) (hf st a h)

theorem inv_eventStep (target : DateKey) (st : ShowState) (ev : VEvent)
    (h : InvState st) : InvState (eventStep target st ev) := by
  unfold eventStep
  split
  · exact h
  · split
    · split
      · exact h
      · split
        · exact foldl_inv
            (inv_of_cases (fun st2 ov => relocStep_cases target _ st2 ov)) _ _
            (foldl_inv
              (inv_of_cases (fun st2 occ => baseOccStep_cases target _ st2 occ)) _ _ h)
        · exact foldl_inv
            (inv_of_cases (fun st2 occ => baseOccStep_cases target _ st2 occ)) _ _ h
    · split
      · exact inv_of_cases (fun st2 x => oneOffStep_cases target _ st2 x) _ _ h
      · exact h

theorem inv_collectShows (target : DateKey) (feed : List VEvent) :
    InvState (collectShows target feed) := by
  unfold collectShows
  exact foldl_inv (fun st ev h => inv_eventStep target st ev h) feed
    { shows := [], seen := [] } ⟨rfl, List.nodup_nil⟩

/-- C3.  De-duplication uniqueness: in every returned schedule no two shows
share the pair (formatted display time, cleaned name) — candidates with an
identical key `formatTimeET(start) + "|" + name` are collapsed to the first
one collected. -/
theorem dedup_no_two_shows_share_time_and_name (target : DateKey)
    (feed : List VEvent) :
    (fetchShows target feed).shows.Pairwise
      (fun a b => ¬ (a.time = b.time ∧ a.name = b.name)) := by
  have hinv := inv_collectShows target feed
  have hnodup : ((collectShows target feed).shows.map keyOfShow).Nodup := by
    rw [← hinv.1]
    exact hinv.2
  have hpw : (collectShows target feed).shows.Pairwise
      (fun a b => keyOfShow a ≠ keyOfShow b) :=
    List.pairwise_map.mp hnodup
  have hpw2 : (collectShows target feed).shows.Pairwise
      (fun a b : ShowFull => ¬ (a.time = b.time ∧ a.name = b.name)) := by
    refine hpw.imp ?_
    intro a b hne hcontra
    exact hne (by rw [keyOfShow, keyOfShow, hcontra.1, hcontra.2])
  have hperm : (sortedShows target feed).Perm (collectShows target feed).shows :=
    List.mergeSort_perm _ _
  have hsym : ∀ {x y : ShowFull},
      (¬ (x.time = y.time ∧ x.name = y.name)) →
      ¬ (y.time = x.time ∧ y.name = x.name) := by
    intro x y h hc
    exact h ⟨hc.1.symm, hc.2.symm⟩
  have hpw3 : (sortedShows target feed).Pairwise
      (fun a b : ShowFull => ¬ (a.time = b.time ∧ a.name = b.name)) :=
    (hperm.pairwise_iff hsym).mpr hpw2
  exact List.pairwise_map.mpr hpw3

theorem sortLE_trans : ∀ a b c : ShowFull,
    decide (a.sortKey ≤ b.sortKey) = true →
    decide (b.sortKey ≤ c.sortKey) = true →
    decide (a.sortKey ≤ c.sortKey) = true := by
  intro a b c h1 h2
  simp only [decide_eq_true_eq] at h1 h2 ⊢
  omega

theorem sortLE_total : ∀ a b : ShowFull,
    (decide (a.sortKey ≤ b.sortKey) || decide (b.sortKey ≤ a.sortKey)) = true := by
  intro a b
  simp only [Bool.or_eq_true, decide_eq_true_eq]
  omega

/-- Stability of the final sort: the elements carrying any given sort key
appear in the sorted output exactly in their collection order. -/
theorem mergeSort_filter_key (l : List ShowFull) (k : Int) :
    ((l.mergeSort (fun a b => decide (a.sortKey ≤ b.sortKey))).filter
        (fun s => decide (s.sortKey = k)))
      = l.filter (fun s => decide (s.sortKey = k)) := by
  have hpw : (l.filter (fun s => decide (s.sortKey = k))).Pairwise
      (fun a b => decide (a.sortKey ≤ b.sortKey) = true) := by
    rw [List.pairwise_iff_forall_sublist]
    intro a b hsub
    have hmem := hsub.subset
    have ha : a ∈ l.filter (fun s => decide (s.sortKey = k)) := hmem (by simp)
    have hb : b ∈ l.filter (fun s => decide (s.sortKey = k)) := hmem (by simp)
    have ha2 := (List.mem_filter.mp ha).2
    have hb2 := (List.mem_filter.mp hb).2
    simp only [decide_eq_true_eq] at ha2 hb2 ⊢
    omega
  have hsub1 : (l.filter (fun s => decide (s.sortKey = k))).Sublist
      (l.mergeSort (fun a b => decide (a.sortKey ≤ b.sortKey))) :=
    List.sublist_mergeSort sortLE_trans sortLE_total hpw (List.filter_sublist l)
  have h4 : ((l.filter (fun s => decide (s.sortKey = k))).filter
        (fun s => decide (s.sortKey = k)))
      = l.filter (fun s => decide (s.sortKey = k)) :=
    List.filter_eq_self.mpr (fun a ha => (List.mem_filter.mp ha).2)
  have hsub2 : (l.filter (fun s => decide (s.sortKey = k))).Sublist
      ((l.mergeSort (fun a b => decide (a.sortKey ≤ b.sortKey))).filter
        (fun s => decide (s.sortKey = k))) := by
    have h3 := hsub1.filter (fun s => decide (s.sortKey = k))
    rwa [h4] at h3
  have hperm : ((l.mergeSort (fun a b => decide (a.sortKey ≤ b.sortKey))).filter
        (fun s => decide (s.sortKey = k))).Perm
      (l.filter (fun s => decide (s.sortKey = k))) :=
    (List.mergeSort_perm l _).filter _
  exact (hsub2.eq_of_length hperm.length_eq.symm).symm

/-- C4.  Sort order: the returned shows are the sorted collection, that
sequence is non-decreasing in the underlying effective start instant, and
candidates with equal instants keep their collection (first-inserted)
order. -/
theorem sort_order_nondecreasing_stable (target : DateKey)
    (feed : List VEvent) :
    (fetchShows target feed).shows
        = (sortedShows target feed).map (fun s => ⟨s.time, s.name⟩)
  ∧ (sortedShows target feed).Pairwise (fun a b => a.sortKey ≤ b.sortKey)
  ∧ (∀ k : Int,
      (sortedShows target feed).filter (fun s => decide (s.sortKey = k))
        = (collectShows target feed).shows.filter
            (fun s => decide (s.sortKey = k))) := by
  refine ⟨rfl, ?_, ?_⟩
  · have hsorted := List.sorted_mergeSort sortLE_trans sortLE_total
      (collectShows target feed).shows
    exact hsorted.imp (fun h => by simpa using h)
  · intro k
    exact mergeSort_filter_key (collectShows target feed).shows k

end LotRadio
